import Mathlib

/-!
Verification development for the PDF review tool's versioning-and-diff core.

The embedding models text as `List Char`, internal generated ids
(`generateId`) as a `Nat` counter threaded through the state, and the
stored JSON payloads by the parsed values they round-trip to.  Wall-clock
timestamps (`createdAt`, `updatedAt`) carry no logic anywhere in the
subsystem and are omitted.  Each definition is translated from the named
source function.
-/

namespace PdfReview

/-- One entry of a version's page-text snapshot (`PageText` in
`src/types/index.ts`): the extracted text of one page. -/
structure PageText where
  pageIndex : Nat
  text : List Char
deriving DecidableEq

/-- The stored `textContent` string of a version, represented by what it
parses to.  The uploader stores the literal empty string (which
`JSON.parse` rejects); `CommitDialog.handleCommit` stores
`JSON.stringify(pageTexts)`, which parses back to the page list. -/
inductive StoredText where
  /-- The empty string written by `PDFUploader.processFile`. -/
  | emptyRaw : StoredText
  /-- `JSON.stringify` of a `PageText[]`, as written by `handleCommit`. -/
  | pagesJson : List PageText → StoredText
deriving DecidableEq

/-- `parseTextContent` (`src/lib/diff-utils.ts`): `JSON.parse` the stored
string, returning the array if it is one and `[]` on a parse failure
(the empty string throws) or a non-array value. -/
def parseTextContent : StoredText → List PageText
  | .emptyRaw => []
  | .pagesJson ps => ps

/-- `dmp.diff_main` returns segments `[op, text]` with
`op ∈ {-1 = delete, 0 = equal, 1 = insert}`. -/
abbrev DiffSeg := Int × List Char

/-- Longest common starting run of two character lists
(`diff_commonPrefix` inside diff-match-patch). -/
def commonStart : List Char → List Char → List Char
  | a :: as, b :: bs => if a = b then a :: commonStart as bs else []
  | _, _ => []

/-- Modelled from the spec: the core of the third-party diff-match-patch
`diff_compute` on texts sharing no common affix — an empty side yields a
single insert/delete, otherwise a delete of the old text and an insert of
the new one (the library refines this split recursively; any refinement
keeps both reconstructions, which is the contract used here). -/
def diffCompute (a b : List Char) : List DiffSeg :=
  if a = [] then [(1, b)]
  else if b = [] then [(-1, a)]
  else [(-1, a), (1, b)]

/-- Modelled from the spec: the third-party `dmp.diff_main` — equal texts
give a single equal segment (or nothing when empty); otherwise the common
start and common end are factored out as equal segments around the
computed middle. -/
def diffMain (a b : List Char) : List DiffSeg :=
  if a = b then (if a = [] then [] else [(0, a)])
  else
    let p := commonStart a b
    let a1 := a.drop p.length
    let b1 := b.drop p.length
    let s := (commonStart a1.reverse b1.reverse).reverse
    let a2 := (a1.reverse.drop s.length).reverse
    let b2 := (b1.reverse.drop s.length).reverse
    let mid := diffCompute a2 b2
    let withPre := if p = [] then mid else (0, p) :: mid
    if s = [] then withPre else withPre ++ [(0, s)]

/-- Modelled from the spec: the third-party `dmp.diff_cleanupSemantic`
merging pass — adjacent runs with the same op are coalesced and empty
runs dropped, which is the shape-preserving core of the semantic
cleanup heuristic. -/
def cleanupSemantic : List DiffSeg → List DiffSeg
  | [] => []
  | (op, t) :: rest =>
    if t = [] then cleanupSemantic rest
    else
      match cleanupSemantic rest with
      | [] => [(op, t)]
      | (op2, t2) :: tail =>
        if op = op2 then (op, t ++ t2) :: tail else (op, t) :: (op2, t2) :: tail

/-- Per-page text diff record (`TextDiff` in `src/types/index.ts`). -/
structure TextDiff where
  pageIndex : Nat
  changes : List DiffSeg
  hasChanges : Bool
  addedCount : Nat
  removedCount : Nat
deriving DecidableEq

/-- Page-text lookup used by `computeTextDiff`:
`pages.find((p) => p.pageIndex === i)?.text ?? ''`. -/
def pageTextAt (ps : List PageText) (i : Nat) : List Char :=
  match ps.find? (fun p => p.pageIndex = i) with
  | some p => p.text
  | none => []

/-- Body of the page loop of `computeTextDiff` (`src/lib/diff-utils.ts`
lines 62–85) for one page index. -/
def textDiffOfPage (basePages comparePages : List PageText) (i : Nat) : TextDiff :=
  let oldText := pageTextAt basePages i
  let newText := pageTextAt comparePages i
  let diffs := cleanupSemantic (diffMain oldText newText)
  { pageIndex := i
    changes := diffs
    hasChanges := diffs.any (fun d => d.1 ≠ 0)
    addedCount := (diffs.filter (fun d => d.1 = 1)).foldl (fun n d => n + d.2.length) 0
    removedCount := (diffs.filter (fun d => d.1 = -1)).foldl (fun n d => n + d.2.length) 0 }

/-- `computeTextDiff` on the two parsed page lists: one `TextDiff` per
page index from 0 to `max(basePages.length, comparePages.length) - 1`. -/
def computeTextDiffPages (basePages comparePages : List PageText) : List TextDiff :=
  (List.range (max basePages.length comparePages.length)).map
    (textDiffOfPage basePages comparePages)

/-- Concatenation of the texts of the segments kept by `keep`, used to
state the reconstruction property. -/
def concatKept (keep : Int → Bool) (l : List DiffSeg) : List Char :=
  l.foldr (fun d acc => if keep d.1 then d.2 ++ acc else acc) []

/-- Simplified annotation entry used by the diff (`AnnotationDiffEntry`
in `src/types/index.ts`).  The optional float bounding box is never
compared by the diff logic and is omitted. -/
structure AnnEntry where
  id : String
  type : String
  pageIndex : Nat
  contents : Option String
  color : Option String
deriving DecidableEq

/-- One insertion into a JavaScript `Map` built by
`new Map(list.map((a) => [a.id, a]))`: an existing key keeps its position
and gets the new value, a fresh key is appended (JS `Map` preserves
insertion order of first occurrence). -/
def mapInsert (m : List (String × AnnEntry)) (e : AnnEntry) :
    List (String × AnnEntry) :=
  if m.any (fun kv => kv.1 = e.id) then
    m.map (fun kv => if kv.1 = e.id then (kv.1, e) else kv)
  else m ++ [(e.id, e)]

/-- `new Map(annotationList.map((a) => [a.id, a]))` as an ordered
association list. -/
def toIdMap (l : List AnnEntry) : List (String × AnnEntry) :=
  l.foldl mapInsert []

/-- `map.get(id)` on the association-list model. -/
def mapFind (m : List (String × AnnEntry)) (k : String) : Option AnnEntry :=
  (m.find? (fun kv => kv.1 = k)).map (fun kv => kv.2)

/-- The modification test of `computeAnnotationDiff`
(`src/lib/diff-utils.ts` lines 158–163): any of contents, color,
pageIndex or type differs. -/
def entryDiffers (oldAnn newAnn : AnnEntry) : Bool :=
  decide (oldAnn.contents ≠ newAnn.contents) ||
  decide (oldAnn.color ≠ newAnn.color) ||
  decide (oldAnn.pageIndex ≠ newAnn.pageIndex) ||
  decide (oldAnn.type ≠ newAnn.type)

/-- `AnnotationDiffResult` of `src/types/index.ts`. -/
structure AnnDiffResult where
  added : List AnnEntry
  deleted : List AnnEntry
  modified : List (AnnEntry × AnnEntry)
deriving DecidableEq

/-- Body of the first loop of `computeAnnotationDiff`
(`src/lib/diff-utils.ts` lines 154–166): a compare-map entry missing
from the base map is added; one present but differing is modified. -/
def addModStep (baseMap : List (String × AnnEntry))
    (acc : List AnnEntry × List (AnnEntry × AnnEntry)) (kv : String × AnnEntry) :
    List AnnEntry × List (AnnEntry × AnnEntry) :=
  match mapFind baseMap kv.1 with
  | none => (acc.1 ++ [kv.2], acc.2)
  | some oldAnn =>
    if entryDiffers oldAnn kv.2 then (acc.1, acc.2 ++ [(oldAnn, kv.2)])
    else acc

/-- Body of the second loop of `computeAnnotationDiff`
(`src/lib/diff-utils.ts` lines 169–173): a base-map entry missing from
the compare map is deleted. -/
def delStep (compareMap : List (String × AnnEntry))
    (acc : List AnnEntry) (kv : String × AnnEntry) : List AnnEntry :=
  if (mapFind compareMap kv.1).isSome then acc else acc ++ [kv.2]

/-- The two loops of `computeAnnotationDiff` (`src/lib/diff-utils.ts`
lines 149–175) over the two already-built id maps. -/
def annDiffOfMaps (baseMap compareMap : List (String × AnnEntry)) : AnnDiffResult :=
  let addedModified := compareMap.foldl (addModStep baseMap) ([], [])
  let deleted := baseMap.foldl (delStep compareMap) []
  { added := addedModified.1, deleted := deleted, modified := addedModified.2 }

/-- `computeAnnotationDiff` on the two parsed entry lists. -/
def computeAnnDiffLists (baseAnns compareAnns : List AnnEntry) : AnnDiffResult :=
  annDiffOfMaps (toIdMap baseAnns) (toIdMap compareAnns)

/-- Well-formedness of the association-list model of a JS `Map` keyed by
entry id: every stored key is its value's id, and keys are distinct. -/
def MapWF (m : List (String × AnnEntry)) : Prop :=
  (∀ kv ∈ m, kv.1 = kv.2.id) ∧ (m.map (fun kv => kv.1)).Nodup

/-- What the first loop contributes to `added` for one compare-map
entry. -/
def addFn (baseMap : List (String × AnnEntry)) (kv : String × AnnEntry) :
    Option AnnEntry :=
  match mapFind baseMap kv.1 with
  | none => some kv.2
  | some _ => none

/-- What the first loop contributes to `modified` for one compare-map
entry. -/
def modFn (baseMap : List (String × AnnEntry)) (kv : String × AnnEntry) :
    Option (AnnEntry × AnnEntry) :=
  match mapFind baseMap kv.1 with
  | none => none
  | some oldAnn => if entryDiffers oldAnn kv.2 then some (oldAnn, kv.2) else none

/-- What the second loop contributes to `deleted` for one base-map
entry. -/
def delFn (compareMap : List (String × AnnEntry)) (kv : String × AnnEntry) :
    Option AnnEntry :=
  if (mapFind compareMap kv.1).isSome then none else some kv.2

/-- `DBDocument` (`src/lib/db.ts`).  Generated ids are modelled as the
`generateId` counter values; `createdAt` is omitted. -/
structure DBDocument where
  id : Nat
  name : String
  currentVersionId : Option Nat
deriving DecidableEq

/-- `DBVersion` (`src/lib/db.ts`).  `pdfData` is an opaque byte list;
the two serialized JSON fields are stored by their parsed round-trip
values (`annotations` always round-trips through `parseAnnotations`,
`textContent` through `parseTextContent`). -/
structure DBVersion where
  id : Nat
  documentId : Nat
  versionNumber : Nat
  message : String
  pdfData : List Nat
  annotations : List AnnEntry
  textContent : StoredText
deriving DecidableEq

/-- The two IndexedDB tables of `PDFReviewDatabase`. -/
structure DB where
  documents : List DBDocument
  versions : List DBVersion
deriving DecidableEq

/-- `db.documents.add`: Dexie rejects a duplicate primary key. -/
def documentsAdd (db : DB) (d : DBDocument) : Option DB :=
  if db.documents.any (fun x => x.id = d.id) then none
  else some { db with documents := db.documents ++ [d] }

/-- `db.versions.add`: Dexie rejects a duplicate primary key. -/
def versionsAdd (db : DB) (v : DBVersion) : Option DB :=
  if db.versions.any (fun x => x.id = v.id) then none
  else some { db with versions := db.versions ++ [v] }

/-- `db.documents.update(id, { currentVersionId })`; a missing id is a
no-op success in Dexie. -/
def documentsUpdateCurrent (db : DB) (docId vid : Nat) : DB :=
  { db with documents :=
      db.documents.map (fun d =>
        if d.id = docId then { d with currentVersionId := some vid } else d) }

/-- `versionOps.getById` / `db.versions.get`. -/
def versionOpsGetById (db : DB) (id : Nat) : Option DBVersion :=
  db.versions.find? (fun v => v.id = id)

/-- Environment-failure injection for the awaited external calls an
operation makes: `true` means that call throws. -/
structure Fault where
  exportFails : Bool
  docAddFails : Bool
  addFails : Bool
  updateFails : Bool
deriving DecidableEq

/-- All external calls succeed. -/
def noFault : Fault := ⟨false, false, false, false⟩

/-- `versionOps.create` (`src/lib/db.ts` lines 167–179): `versions.add`,
then `documents.update` of the owning document's `currentVersionId`.
The two awaits are sequential and not wrapped in a transaction, so a
throw in the second leaves the first write in place.  Returns the
resulting database and whether the call succeeded. -/
def versionOpsCreate (f : Fault) (db : DB) (v : DBVersion) : DB × Bool :=
  if f.addFails then (db, false)
  else
    match versionsAdd db v with
    | none => (db, false)
    | some db1 =>
      if f.updateFails then (db1, false)
      else (documentsUpdateCurrent db1 v.documentId v.id, true)

/-- `AnnotationType` of `src/types/index.ts`. -/
inductive AnnType where
  | highlight
  | note
  | freetext
  | redaction
  | textEdit
deriving DecidableEq

/-- The enum's string value. -/
def AnnType.toStr : AnnType → String
  | .highlight => "highlight"
  | .note => "note"
  | .freetext => "freetext"
  | .redaction => "redaction"
  | .textEdit => "textEdit"

/-- `TrackedAnnotation` of `src/types/index.ts` (timestamps omitted;
`id` is the generated counter value, `pspdfkitId` the renderer's own
id). -/
structure TrackedAnn where
  id : Nat
  type : AnnType
  pageIndex : Nat
  contents : String
  color : String
  pspdfkitId : String
deriving DecidableEq

/-- The `action` field of a change record. -/
inductive ChangeAction where
  | create
  | update
  | delete
deriving DecidableEq

/-- `AnnotationChangeRecord` of `src/types/index.ts` (timestamp
omitted). -/
structure ChangeRecord where
  id : Nat
  annotationId : Nat
  action : ChangeAction
  type : AnnType
  pageIndex : Nat
  contents : String
deriving DecidableEq

/-- The metadata projection kept in the Zustand version store (a
`Version` without `pdfData`). -/
structure VersionMetadata where
  id : Nat
  documentId : Nat
  versionNumber : Nat
  message : String
  annotations : List AnnEntry
  textContent : StoredText
deriving DecidableEq

/-- Drop `pdfData` (`const { pdfData: _pdfData, ...metadata } = version`). -/
def DBVersion.metadata (v : DBVersion) : VersionMetadata :=
  ⟨v.id, v.documentId, v.versionNumber, v.message, v.annotations, v.textContent⟩

/-- Insertion into a list sorted by `versionNumber` descending. -/
def insertByNumberDesc (v : VersionMetadata) :
    List VersionMetadata → List VersionMetadata
  | [] => [v]
  | w :: ws =>
    if w.versionNumber ≤ v.versionNumber then v :: w :: ws
    else w :: insertByNumberDesc v ws

/-- `versions.sort((a, b) => b.versionNumber - a.versionNumber)`. -/
def sortByNumberDesc (l : List VersionMetadata) : List VersionMetadata :=
  l.foldr insertByNumberDesc []

/-- Combined state of the Zustand stores, the IndexedDB contents and the
`generateId` counter. -/
structure AppState where
  db : DB
  documents : List DBDocument
  currentDocument : Option DBDocument
  uiVersions : List VersionMetadata
  uiCurrentVersionId : Option Nat
  annotations : List TrackedAnn
  pendingChanges : List ChangeRecord
  nextId : Nat
deriving DecidableEq

/-- `useVersionStore.addVersion`: prepend, drop an id duplicate, re-sort
descending, and point `currentVersionId` at the new version. -/
def storeAddVersion (s : AppState) (m : VersionMetadata) : AppState :=
  { s with
      uiVersions := sortByNumberDesc (m :: s.uiVersions.filter (fun v => v.id ≠ m.id)),
      uiCurrentVersionId := some m.id }

/-- `useVersionStore.setCurrentVersion` (the comparison-view fields it
also resets are not modelled). -/
def setCurrentVersion (s : AppState) (id : Option Nat) : AppState :=
  { s with uiCurrentVersionId := id }

/-- `useAnnotationStore.clearChanges`: empties `pendingChanges` only. -/
def clearChanges (s : AppState) : AppState :=
  { s with pendingChanges := [] }

/-- The renderer-side inputs a commit reads from the PSPDFKit instance:
page count, per-page text (`none` models a per-page extraction throw),
the `exportPDF` bytes, and the normalized annotations its
`exportInstantJSON` would report. -/
structure Renderer where
  totalPageCount : Nat
  pageText : Nat → Option (List Char)
  exportedPdf : List Nat
  instantAnnotations : List AnnEntry

/-- `CommitDialog.extractText` (lines 62–74): loop page indices 0 to
`totalPageCount - 1`; a page whose extraction throws degrades to the
empty string. -/
def extractText (r : Renderer) : List PageText :=
  (List.range r.totalPageCount).map (fun i => ⟨i, (r.pageText i).getD []⟩)

/-- The snapshot `handleCommit` serializes (lines 88–97): the tracker
store's annotations list mapped to
`{ id: pspdfkitId, type, pageIndex, contents, color }`. -/
def serializeTrackerAnns (l : List TrackedAnn) : List AnnEntry :=
  l.map (fun a =>
    ⟨a.pspdfkitId, a.type.toStr, a.pageIndex, some a.contents, some a.color⟩)

/-- JavaScript `message.trim()`: strip leading and trailing whitespace
(implemented structurally over the character list so that it reduces in
the kernel). -/
def trimStr (s : String) : String :=
  String.mk
    (((s.data.dropWhile Char.isWhitespace).reverse.dropWhile
        Char.isWhitespace).reverse)

/-- `CommitDialog.nextVersionNumber` (lines 48–50). -/
def nextVersionNumber (versions : List VersionMetadata) : Nat :=
  if versions.length > 0 then
    (versions.map (fun v => v.versionNumber)).foldl max 0 + 1
  else 1

/-- `CommitDialog.handleCommit` (lines 79–151).  Returns the new state
and whether the commit reached its success path; the `catch` branch
performs no store mutation, so on failure only the database (already
mutated inside `versionOps.create`) and the consumed id differ. -/
def handleCommit (f : Fault) (inst? : Option Renderer) (message : String)
    (s : AppState) : AppState × Bool :=
  match inst?, s.currentDocument with
  | some inst, some doc =>
    if trimStr message = "" then (s, false)
    else if f.exportFails then (s, false)
    else
      let v : DBVersion :=
        { id := s.nextId,
          documentId := doc.id,
          versionNumber := nextVersionNumber s.uiVersions,
          message := trimStr message,
          pdfData := inst.exportedPdf,
          annotations := serializeTrackerAnns s.annotations,
          textContent := StoredText.pagesJson (extractText inst) }
      let res := versionOpsCreate f s.db v
      if res.2 then
        (clearChanges (storeAddVersion
          { s with db := res.1, nextId := s.nextId + 1 } v.metadata), true)
      else ({ s with db := res.1, nextId := s.nextId + 1 }, false)
  | _, _ => (s, false)

/-- `PDFUploader.processFile` (lines 49–105), after file validation
passed: build the document record (already pointing at the upcoming
version id), persist it, persist version 1 with empty annotations and
an empty-string `textContent`, then seed the stores. -/
def processFile (f : Fault) (name : String) (bytes : List Nat)
    (s : AppState) : AppState × Bool :=
  let docId := s.nextId
  let versionId := s.nextId + 1
  let s1 := { s with nextId := s.nextId + 2 }
  let document : DBDocument := ⟨docId, name, some versionId⟩
  let version : DBVersion :=
    { id := versionId, documentId := docId, versionNumber := 1,
      message := "Initial upload", pdfData := bytes,
      annotations := [], textContent := StoredText.emptyRaw }
  if f.docAddFails then (s1, false)
  else
    match documentsAdd s1.db document with
    | none => (s1, false)
    | some db1 =>
      let res := versionOpsCreate f db1 version
      if res.2 then
        ({ s1 with
            db := res.1,
            documents := document :: s1.documents,
            currentDocument := some document,
            uiVersions := [version.metadata],
            uiCurrentVersionId := some versionId }, true)
      else ({ s1 with db := res.1 }, false)

/-- `computeTextDiff` (`src/lib/diff-utils.ts` lines 42–88): resolve
both versions (`none` models the thrown not-found error) and diff the
parsed page lists. -/
def computeTextDiff (db : DB) (baseVersionId compareVersionId : Nat) :
    Option (List TextDiff) :=
  match versionOpsGetById db baseVersionId, versionOpsGetById db compareVersionId with
  | some baseVersion, some compareVersion =>
    some (computeTextDiffPages (parseTextContent baseVersion.textContent)
      (parseTextContent compareVersion.textContent))
  | _, _ => none

/-- `computeAnnotationDiff` (`src/lib/diff-utils.ts` lines 130–176) at
the database level. -/
def computeAnnDiff (db : DB) (baseVersionId compareVersionId : Nat) :
    Option AnnDiffResult :=
  match versionOpsGetById db baseVersionId, versionOpsGetById db compareVersionId with
  | some baseVersion, some compareVersion =>
    some (computeAnnDiffLists baseVersion.annotations compareVersion.annotations)
  | _, _ => none

/-- `DiffSummary` of `src/types/index.ts`. -/
structure DiffSummary where
  totalChanges : Nat
  textChanges : Nat
  annotationsAdded : Nat
  annotationsRemoved : Nat
  annotationsModified : Nat
deriving DecidableEq

/-- `DiffResult` of `src/types/index.ts`.  The flat `annotationChanges`
list is the concatenation of the three groups of the annotation diff
(the conversion in `computeFullDiff` adds only presentation strings and
default rects), kept here in grouped form. -/
structure DiffResult where
  versionAId : Nat
  versionBId : Nat
  textDiffs : List TextDiff
  annChanges : AnnDiffResult
  summary : DiffSummary
deriving DecidableEq

/-- `computeFullDiff` (`src/lib/diff-utils.ts` lines 181–266): both
halves, then the summary by counting.  Note there is no identical-id
check here. -/
def computeFullDiff (db : DB) (baseVersionId compareVersionId : Nat) :
    Option DiffResult :=
  match computeTextDiff db baseVersionId compareVersionId,
        computeAnnDiff db baseVersionId compareVersionId with
  | some textDiffs, some ad =>
    let textChangesCount := (textDiffs.filter (fun d => d.hasChanges)).length
    let annCount := ad.added.length + ad.deleted.length + ad.modified.length
    some { versionAId := baseVersionId,
           versionBId := compareVersionId,
           textDiffs := textDiffs,
           annChanges := ad,
           summary := { totalChanges := textChangesCount + annCount,
                        textChanges := textChangesCount,
                        annotationsAdded := ad.added.length,
                        annotationsRemoved := ad.deleted.length,
                        annotationsModified := ad.modified.length } }
  | _, _ => none

/-- Outcome of `VersionDiff.handleCompare` (lines 190–214). -/
inductive CompareOutcome where
  | missingSelection
  | identicalRejected
  | failed
  | computed (r : DiffResult)
deriving DecidableEq

/-- `VersionDiff.handleCompare`: reject a missing selection, reject equal
ids before any diff computation, otherwise run `computeFullDiff` with
the catch branch mapped to `failed`. -/
def handleCompare (db : DB) (baseVersionId compareVersionId : Option Nat) :
    CompareOutcome :=
  match baseVersionId, compareVersionId with
  | some b, some c =>
    if b = c then .identicalRejected
    else
      match computeFullDiff db b c with
      | some r => .computed r
      | none => .failed
  | _, _ => .missingSelection

/-- `VersionPanel` component state paired with the stores: the pending
switch-confirmation dialog target. -/
structure PanelState where
  app : AppState
  switchTarget : Option VersionMetadata
deriving DecidableEq

/-- `VersionPanel.handleVersionClick` (lines 81–90 of the panel): a
click on the current version returns immediately; with unsaved changes
the confirmation dialog is armed; otherwise the switch happens at
once. -/
def handleVersionClick (p : PanelState) (version : VersionMetadata) : PanelState :=
  if some version.id = p.app.uiCurrentVersionId then p
  else if p.app.pendingChanges.length > 0 then
    { p with switchTarget := some version }
  else { p with app := setCurrentVersion p.app (some version.id) }

/-- The dialog's Cancel button / dismissal: `setSwitchTarget(null)`. -/
def handleCancelSwitch (p : PanelState) : PanelState :=
  { p with switchTarget := none }

/-- `VersionPanel.handleDiscardAndSwitch` (lines 95–101 of the panel):
`clearChanges()`, `setCurrentVersion(target)`, close the dialog. -/
def handleDiscardAndSwitch (p : PanelState) : PanelState :=
  match p.switchTarget with
  | none => p
  | some target =>
    { app := setCurrentVersion (clearChanges p.app) (some target.id),
      switchTarget := none }

/-- `mapAnnotationType` (`PDFViewer.tsx` lines 86–99); unrecognized
subtypes default to `freetext`. -/
def mapAnnType (t : String) : AnnType :=
  if t = "pspdfkit/highlight" then .highlight
  else if t = "pspdfkit/text-highlight" then .highlight
  else if t = "pspdfkit/note" then .note
  else if t = "pspdfkit/text" then .freetext
  else if t = "pspdfkit/ink" then .freetext
  else if t = "pspdfkit/redaction" then .redaction
  else if t = "pspdfkit/markup/highlight" then .highlight
  else if t = "pspdfkit/comment" then .note
  else if t = "pspdfkit/widget" then .freetext
  else .freetext

/-- The fields of a raw PSPDFKit annotation object the tracker reads
(`PSPDFKitAnnotation`); absent fields are `none`, rgb channels are
byte values. -/
structure RawAnn where
  id : String
  type : String
  pageIndex : Nat
  text : Option String
  contents : Option String
  note : Option String
  color : Option (Nat × Nat × Nat)
deriving DecidableEq

/-- `getAnnotationContents` (`PDFViewer.tsx` lines 104–115): the first
present, non-empty one of `text`, `contents`, `note`, else the empty
string. -/
def getAnnContents (a : RawAnn) : String :=
  if (a.text.getD "") ≠ "" then a.text.getD ""
  else if (a.contents.getD "") ≠ "" then a.contents.getD ""
  else if (a.note.getD "") ≠ "" then a.note.getD ""
  else ""

/-- One lowercase hex digit. -/
def hexDigitChar (n : Nat) : Char :=
  if n < 10 then Char.ofNat (48 + n) else Char.ofNat (87 + n)

/-- `Math.round(channel).toString(16).padStart(2, "0")` for a byte
value. -/
def hexByte (n : Nat) : String :=
  String.mk [hexDigitChar (n / 16 % 16), hexDigitChar (n % 16)]

/-- `getAnnotationColor` (`PDFViewer.tsx` lines 120–134): rgb to hex,
defaulting to the yellow `#ffeb3b`. -/
def getAnnColor (a : RawAnn) : String :=
  match a.color with
  | some rgb => "#" ++ hexByte rgb.1 ++ hexByte rgb.2.1 ++ hexByte rgb.2.2
  | none => "#ffeb3b"

/-- `toTrackedAnnotation` (`PDFViewer.tsx` lines 162–174); the
`generateId()` call is the supplied counter value. -/
def toTrackedAnn (freshId : Nat) (a : RawAnn) : TrackedAnn :=
  { id := freshId,
    type := mapAnnType a.type,
    pageIndex := a.pageIndex,
    contents := getAnnContents a,
    color := getAnnColor a,
    pspdfkitId := a.id }

/-- Map a raw list through `toTrackedAnnotation`, consuming one fresh id
per element starting at `n`. -/
def trackAll (n : Nat) : List RawAnn → List TrackedAnn
  | [] => []
  | a :: rest => toTrackedAnn n a :: trackAll (n + 1) rest

/-- `syncAnnotationsFromInstance` (`PDFViewer.tsx` lines 268–284): remap
every raw annotation and `setAnnotations` the result; `pendingChanges`
is not touched and no change record is emitted. -/
def syncAnnotationsFromInstance (s : AppState) (raws : List RawAnn) : AppState :=
  { s with
      annotations := trackAll s.nextId raws,
      nextId := s.nextId + raws.length }

/-- One commit attempt: the injected faults, the renderer state at that
moment, and the message entered. -/
structure CommitEv where
  fault : Fault
  renderer : Renderer
  message : String

/-- Run a sequence of commit attempts, counting the successful ones. -/
def runCommits (s : AppState) : List CommitEv → AppState × Nat
  | [] => (s, 0)
  | e :: rest =>
    let r1 := handleCommit e.fault (some e.renderer) e.message s
    let r2 := runCommits r1.1 rest
    (r2.1, (if r1.2 then 1 else 0) + r2.2)

/-- The initial store state: all Zustand stores at their
`initialState`, an empty database, the id counter at 0. -/
def initialAppState : AppState :=
  { db := ⟨[], []⟩,
    documents := [],
    currentDocument := none,
    uiVersions := [],
    uiCurrentVersionId := none,
    annotations := [],
    pendingChanges := [],
    nextId := 0 }

/-- A one-document application state ready to commit. -/
def readyState : AppState :=
  { initialAppState with currentDocument := some ⟨0, "doc.pdf", none⟩ }

/-- A renderer with no pages and no annotations. -/
def emptyRenderer : Renderer := ⟨0, fun _ => none, [], []⟩

/-- Version 1 exactly as the uploader creates it. -/
def uploadV1 : DBVersion :=
  { id := 1, documentId := 0, versionNumber := 1, message := "Initial upload",
    pdfData := [], annotations := [], textContent := StoredText.emptyRaw }

/-- Database fixture: one document with its initial version. -/
def dbOneVersion : DB :=
  { documents := [⟨0, "doc.pdf", some 1⟩], versions := [uploadV1] }

/-- A committed second version with one page of text and one note. -/
def textV2 : DBVersion :=
  { id := 2, documentId := 0, versionNumber := 2, message := "edit",
    pdfData := [], annotations := [⟨"a1", "note", 0, some "final", none⟩],
    textContent := StoredText.pagesJson [⟨0, ['h', 'i']⟩] }

/-- Database fixture: the uploaded version plus one committed version. -/
def dbTwoVersions : DB :=
  { documents := [⟨0, "doc.pdf", some 2⟩], versions := [uploadV1, textV2] }

/-- A third version holding the draft wording of the note. -/
def draftV : DBVersion :=
  { id := 3, documentId := 0, versionNumber := 3, message := "draft",
    pdfData := [], annotations := [⟨"a1", "note", 0, some "draft", none⟩],
    textContent := StoredText.pagesJson [⟨0, ['h', 'i']⟩] }

/-- Fixture with the draft and final wordings of the same note. -/
def dbAnnPair : DB :=
  { documents := [⟨0, "doc.pdf", some 3⟩], versions := [textV2, draftV] }

/-- A raw note annotation as the renderer reports it. -/
def rawNote : RawAnn :=
  { id := "p1", type := "pspdfkit/note", pageIndex := 0,
    text := none, contents := some "hey", note := none, color := none }

/-- A single pending change record. -/
def pendingRec : ChangeRecord :=
  { id := 5, annotationId := 3, action := ChangeAction.create,
    type := AnnType.highlight, pageIndex := 0, contents := "hi" }

/-- Panel fixture: version 1 current, one unsaved change, dialog armed
for version 2. -/
def panelWit : PanelState :=
  { app := { initialAppState with
      uiVersions := [textV2.metadata, uploadV1.metadata],
      uiCurrentVersionId := some 1,
      pendingChanges := [pendingRec] },
    switchTarget := some textV2.metadata }

/-- A renderer whose authoritative export reports one annotation. -/
def annRenderer : Renderer :=
  ⟨0, fun _ => none, [], [⟨"x", "note", 0, some "c", none⟩]⟩

/-- A single tracked highlight in the store. -/
def trackedWit : TrackedAnn :=
  { id := 7, type := AnnType.highlight, pageIndex := 0,
    contents := "mark", color := "#ffeb3b", pspdfkitId := "pk7" }

/-- Commit-ready state whose tracker holds one annotation. -/
def trackerReady : AppState :=
  { readyState with annotations := [trackedWit] }

/-- Invariant for the single uploaded document (id 0): the stored
version numbers are exactly 1..n in insertion order, the UI store holds
them descending, all version ids are below the id counter, and the
current document is the uploaded one. -/
def DenseInv (s : AppState) (n : Nat) : Prop :=
  1 ≤ n ∧
  s.db.versions.map (fun v => v.versionNumber) = List.range' 1 n ∧
  (∀ v ∈ s.db.versions, v.documentId = 0 ∧ v.id < s.nextId) ∧
  s.uiVersions.map (fun v => v.versionNumber) = (List.range' 1 n).reverse ∧
  (∀ m ∈ s.uiVersions, m.id < s.nextId) ∧
  (∀ doc, s.currentDocument = some doc → doc.id = 0)

theorem concatKept_nil (keep : Int → Bool) : concatKept keep [] = [] := rfl

theorem concatKept_cons (keep : Int → Bool) (op : Int) (t : List Char) (l : List DiffSeg) :
    concatKept keep ((op, t) :: l) =
      if keep op then t ++ concatKept keep l else concatKept keep l := rfl

theorem concatKept_append (keep : Int → Bool) (l1 l2 : List DiffSeg) :
    concatKept keep (l1 ++ l2) = concatKept keep l1 ++ concatKept keep l2 := by
  induction l1 with
  | nil => simp [concatKept]
  | cons d l ih =>
    obtain ⟨op, t⟩ := d
    by_cases h : keep op <;>
      simp [concatKept_cons, h, ih, List.cons_append, List.append_assoc]

/-- `commonStart a b` is a common starting run: gluing back the dropped
remainder of either argument recovers that argument. -/
theorem commonStart_glue (a b : List Char) :
    commonStart a b ++ a.drop (commonStart a b).length = a ∧
    commonStart a b ++ b.drop (commonStart a b).length = b := by
  induction a generalizing b with
  | nil => cases b <;> simp [commonStart]
  | cons x as ih =>
    cases b with
    | nil => simp [commonStart]
    | cons y bs =>
      by_cases h : x = y
      · subst h
        have := ih bs
        simp [commonStart, this.1, this.2]
      · simp [commonStart, h]

theorem concatKept_diffCompute_notDel (a b : List Char) :
    concatKept (fun op => op != -1) (diffCompute a b) = b := by
  unfold diffCompute
  by_cases ha : a = [] <;> by_cases hb : b = [] <;>
    simp [ha, hb, concatKept_cons, concatKept_nil]

theorem concatKept_diffCompute_notIns (a b : List Char) :
    concatKept (fun op => op != 1) (diffCompute a b) = a := by
  unfold diffCompute
  by_cases ha : a = [] <;> by_cases hb : b = [] <;>
    simp [ha, hb, concatKept_cons, concatKept_nil]

/-- The prefix/suffix factoring of `diffMain` glues back: the trimmed
middles with the common affixes reconstruct each input. -/
theorem diffMain_glue (a b : List Char) :
    let p := commonStart a b
    let a1 := a.drop p.length
    let b1 := b.drop p.length
    let s := (commonStart a1.reverse b1.reverse).reverse
    let a2 := (a1.reverse.drop s.length).reverse
    let b2 := (b1.reverse.drop s.length).reverse
    p ++ (a2 ++ s) = a ∧ p ++ (b2 ++ s) = b := by
  intro p a1 b1 s a2 b2
  have hp := commonStart_glue a b
  have hs := commonStart_glue a1.reverse b1.reverse
  have hsl : s.length = (commonStart a1.reverse b1.reverse).length := by
    simp [s]
  have ha2 : a2 ++ s = a1 := by
    have : (commonStart a1.reverse b1.reverse ++
        a1.reverse.drop (commonStart a1.reverse b1.reverse).length).reverse
        = a1.reverse.reverse := by rw [hs.1]
    simpa [a2, s, hsl, List.reverse_append] using this
  have hb2 : b2 ++ s = b1 := by
    have : (commonStart a1.reverse b1.reverse ++
        b1.reverse.drop (commonStart a1.reverse b1.reverse).length).reverse
        = b1.reverse.reverse := by rw [hs.2]
    simpa [b2, s, hsl, List.reverse_append] using this
  constructor
  · rw [ha2]; exact hp.1
  · rw [hb2]; exact hp.2

theorem concatKept_diffMain_notDel (a b : List Char) :
    concatKept (fun op => op != -1) (diffMain a b) = b := by
  unfold diffMain
  by_cases hab : a = b
  · subst hab
    by_cases ha : a = [] <;> simp [ha, concatKept_cons, concatKept_nil]
  · simp only [hab, if_false]
    have hglue := diffMain_glue a b
    simp only at hglue
    set p := commonStart a b with hp
    set a1 := a.drop p.length with ha1
    set b1 := b.drop p.length with hb1
    set s := (commonStart a1.reverse b1.reverse).reverse with hsdef
    set b2 := (b1.reverse.drop s.length).reverse with hb2
    have hmid := concatKept_diffCompute_notDel
      ((a1.reverse.drop s.length).reverse) b2
    by_cases hpe : p = [] <;> by_cases hse : s = [] <;>
      simp_all [concatKept_append, concatKept_cons, concatKept_nil]

theorem concatKept_diffMain_notIns (a b : List Char) :
    concatKept (fun op => op != 1) (diffMain a b) = a := by
  unfold diffMain
  by_cases hab : a = b
  · subst hab
    by_cases ha : a = [] <;> simp [ha, concatKept_cons, concatKept_nil]
  · simp only [hab, if_false]
    have hglue := diffMain_glue a b
    simp only at hglue
    set p := commonStart a b with hp
    set a1 := a.drop p.length with ha1
    set b1 := b.drop p.length with hb1
    set s := (commonStart a1.reverse b1.reverse).reverse with hsdef
    set a2 := (a1.reverse.drop s.length).reverse with ha2
    have hmid := concatKept_diffCompute_notIns
      a2 ((b1.reverse.drop s.length).reverse)
    by_cases hpe : p = [] <;> by_cases hse : s = [] <;>
      simp_all [concatKept_append, concatKept_cons, concatKept_nil]

/-- The merging cleanup pass changes no reconstruction. -/
theorem concatKept_cleanupSemantic (keep : Int → Bool) (l : List DiffSeg) :
    concatKept keep (cleanupSemantic l) = concatKept keep l := by
  induction l with
  | nil => rfl
  | cons d rest ih =>
    obtain ⟨op, t⟩ := d
    by_cases ht : t = []
    · subst ht
      simp [cleanupSemantic, concatKept_cons, ih]
    · simp only [cleanupSemantic, ht, if_false]
      cases hrest : cleanupSemantic rest with
      | nil =>
        have : concatKept keep rest = [] := by rw [← ih, hrest]; rfl
        simp [concatKept_cons, concatKept_nil, this]
      | cons d2 tail =>
        obtain ⟨op2, t2⟩ := d2
        by_cases hop : op = op2
        · subst hop
          have : concatKept keep rest = concatKept keep ((op, t2) :: tail) := by
            rw [← ih, hrest]
          by_cases hk : keep op <;>
            simp [concatKept_cons, this, hk, List.append_assoc]
        · have : concatKept keep rest = concatKept keep ((op2, t2) :: tail) := by
            rw [← ih, hrest]
          simp [hop, concatKept_cons, this]

/-- Round trip of one page's diff: the non-delete segments rebuild the
compare-side text, the non-insert segments rebuild the base-side text. -/
theorem textDiffOfPage_roundTrip (basePages comparePages : List PageText) (i : Nat) :
    concatKept (fun op => op != -1) (textDiffOfPage basePages comparePages i).changes
        = pageTextAt comparePages i ∧
    concatKept (fun op => op != 1) (textDiffOfPage basePages comparePages i).changes
        = pageTextAt basePages i := by
  constructor
  · rw [textDiffOfPage]
    simp only
    rw [concatKept_cleanupSemantic, concatKept_diffMain_notDel]
  · rw [textDiffOfPage]
    simp only
    rw [concatKept_cleanupSemantic, concatKept_diffMain_notIns]

theorem mapInsert_keys_or (m : List (String × AnnEntry)) (e : AnnEntry) :
    (mapInsert m e).map (fun kv => kv.1) = m.map (fun kv => kv.1) ∨
    (mapInsert m e).map (fun kv => kv.1) = m.map (fun kv => kv.1) ++ [e.id] := by
  unfold mapInsert
  by_cases h : (m.any (fun kv => kv.1 = e.id)) = true
  · left
    rw [if_pos h, List.map_map]
    refine List.map_congr_left ?_
    intro kv _
    by_cases hk : kv.1 = e.id <;> simp [hk]
  · right
    rw [if_neg h]
    simp

theorem mapInsert_wf (m : List (String × AnnEntry)) (e : AnnEntry)
    (h : MapWF m) : MapWF (mapInsert m e) := by
  obtain ⟨hid, hnd⟩ := h
  unfold mapInsert
  by_cases hmem : (m.any (fun kv => kv.1 = e.id)) = true
  · rw [if_pos hmem]
    constructor
    · intro kv hkv
      obtain ⟨kv0, hkv0, heq⟩ := List.mem_map.mp hkv
      by_cases hk : kv0.1 = e.id
      · simp only [hk, if_true] at heq
        rw [← heq]
      · simp only [hk, if_false] at heq
        rw [← heq]; exact hid kv0 hkv0
    · have : ((m.map fun kv => if kv.1 = e.id then (kv.1, e) else kv).map
          fun kv => kv.1) = m.map fun kv => kv.1 := by
        rw [List.map_map]
        refine List.map_congr_left ?_
        intro kv _
        by_cases hk : kv.1 = e.id <;> simp [hk]
      rw [this]; exact hnd
  · rw [if_neg hmem]
    constructor
    · intro kv hkv
      rcases List.mem_append.mp hkv with hold | hnew
      · exact hid kv hold
      · simp only [List.mem_singleton] at hnew
        rw [hnew]
    · rw [List.map_append]
      simp only [List.map_cons, List.map_nil]
      rw [List.nodup_append]
      refine ⟨hnd, List.nodup_singleton _, ?_⟩
      intro k hk
      simp only [List.mem_singleton]
      intro hke
      apply hmem
      rw [List.any_eq_true]
      obtain ⟨kv, hkv, hkeq⟩ := List.mem_map.mp hk
      exact ⟨kv, hkv, by simp [hkeq, hke]⟩

theorem toIdMap_wf (l : List AnnEntry) : MapWF (toIdMap l) := by
  have aux : ∀ (l : List AnnEntry) (m : List (String × AnnEntry)),
      MapWF m → MapWF (l.foldl mapInsert m) := by
    intro l
    induction l with
    | nil => intro m hm; exact hm
    | cons e rest ih =>
      intro m hm
      exact ih (mapInsert m e) (mapInsert_wf m e hm)
  exact aux l [] ⟨(fun kv h => nomatch h), List.nodup_nil⟩

theorem mapFind_eq_some_iff (m : List (String × AnnEntry)) (hwf : MapWF m)
    (k : String) (e : AnnEntry) :
    mapFind m k = some e ↔ (k, e) ∈ m := by
  constructor
  · intro h
    unfold mapFind at h
    obtain ⟨kv, hfind, hv⟩ := Option.map_eq_some'.mp h
    have hmem := List.mem_of_find?_eq_some hfind
    have hkey : kv.1 = k := by simpa using List.find?_some hfind
    have : kv = (k, e) := by
      rw [Prod.ext_iff]
      exact ⟨hkey, hv⟩
    rw [← this]; exact hmem
  · intro hmem
    unfold mapFind
    cases hfind : m.find? (fun kv => kv.1 = k) with
    | none =>
      exfalso
      have := List.find?_eq_none.mp hfind (k, e) hmem
      simp at this
    | some kv =>
      have hkv := List.mem_of_find?_eq_some hfind
      have hkey : kv.1 = k := by simpa using List.find?_some hfind
      have hinj := List.inj_on_of_nodup_map hwf.2
      have : kv = (k, e) := hinj hkv hmem (by simpa using hkey)
      simp [this]

theorem foldl_addModStep (baseMap cm : List (String × AnnEntry)) :
    ∀ acc : List AnnEntry × List (AnnEntry × AnnEntry),
      cm.foldl (addModStep baseMap) acc =
        (acc.1 ++ cm.filterMap (addFn baseMap),
         acc.2 ++ cm.filterMap (modFn baseMap)) := by
  induction cm with
  | nil => intro acc; simp
  | cons kv rest ih =>
    intro acc
    simp only [List.foldl_cons, List.filterMap_cons]
    rw [ih]
    unfold addModStep addFn modFn
    cases h : mapFind baseMap kv.1 with
    | none => simp [h]
    | some oldAnn =>
      by_cases hd : entryDiffers oldAnn kv.2 = true <;> simp [h, hd]

theorem foldl_delStep (compareMap bm : List (String × AnnEntry)) :
    ∀ acc : List AnnEntry,
      bm.foldl (delStep compareMap) acc = acc ++ bm.filterMap (delFn compareMap) := by
  induction bm with
  | nil => intro acc; simp
  | cons kv rest ih =>
    intro acc
    simp only [List.foldl_cons, List.filterMap_cons]
    rw [ih]
    unfold delStep delFn
    by_cases h : (mapFind compareMap kv.1).isSome = true <;> simp [h]

theorem annDiff_added_eq (bm cm : List (String × AnnEntry)) :
    (annDiffOfMaps bm cm).added = cm.filterMap (addFn bm) := by
  unfold annDiffOfMaps
  rw [foldl_addModStep]
  simp

theorem annDiff_modified_eq (bm cm : List (String × AnnEntry)) :
    (annDiffOfMaps bm cm).modified = cm.filterMap (modFn bm) := by
  unfold annDiffOfMaps
  rw [foldl_addModStep]
  simp

theorem annDiff_deleted_eq (bm cm : List (String × AnnEntry)) :
    (annDiffOfMaps bm cm).deleted = bm.filterMap (delFn cm) := by
  unfold annDiffOfMaps
  rw [foldl_delStep]
  simp

theorem addFn_eq_delFn (bm : List (String × AnnEntry)) (kv : String × AnnEntry) :
    addFn bm kv = delFn bm kv := by
  unfold addFn delFn
  cases h : mapFind bm kv.1 <;> simp [h]

/-- Swapping the operands turns `added` into `deleted` verbatim: both are
the compare-side map entries whose id is absent from the other map, in
the same order. -/
theorem computeAnnDiffLists_added_swap (a b : List AnnEntry) :
    (computeAnnDiffLists a b).added = (computeAnnDiffLists b a).deleted := by
  unfold computeAnnDiffLists
  rw [annDiff_added_eq, annDiff_deleted_eq]
  have : addFn (toIdMap a) = delFn (toIdMap a) :=
    funext (fun kv => addFn_eq_delFn (toIdMap a) kv)
  rw [this]

theorem entryDiffers_comm (a b : AnnEntry) :
    entryDiffers a b = true ↔ entryDiffers b a = true := by
  simp only [entryDiffers, Bool.or_eq_true, decide_eq_true_eq]
  constructor <;> (intro h; rcases h with ((h | h) | h) | h
                   <;> simp [Ne.symm h, h.symm])

theorem mapFind_some_key_eq_id (m : List (String × AnnEntry)) (hwf : MapWF m)
    (k : String) (e : AnnEntry) (h : mapFind m k = some e) : k = e.id :=
  hwf.1 (k, e) ((mapFind_eq_some_iff m hwf k e).mp h)

/-- Membership in the `modified` list, phrased through the two id maps:
the pair's new side is the compare map's entry at its id, the old side is
the base map's entry there, and the two differ. -/
theorem mem_modified_iff (a b : List AnnEntry) (p : AnnEntry × AnnEntry) :
    p ∈ (computeAnnDiffLists a b).modified ↔
      (mapFind (toIdMap a) p.2.id = some p.1 ∧
       mapFind (toIdMap b) p.2.id = some p.2 ∧
       entryDiffers p.1 p.2 = true) := by
  unfold computeAnnDiffLists
  rw [annDiff_modified_eq, List.mem_filterMap]
  constructor
  · rintro ⟨kv, hkv, hmod⟩
    unfold modFn at hmod
    cases hfind : mapFind (toIdMap a) kv.1 with
    | none => rw [hfind] at hmod; simp at hmod
    | some oldAnn =>
      by_cases hd : entryDiffers oldAnn kv.2 = true
      · have hp : (oldAnn, kv.2) = p := by
          rw [hfind] at hmod
          simpa [hd] using hmod
        have hkey : kv.1 = kv.2.id := (toIdMap_wf b).1 kv hkv
        have hmemb : mapFind (toIdMap b) kv.1 = some kv.2 := by
          refine (mapFind_eq_some_iff _ (toIdMap_wf b) _ _).mpr ?_
          simpa using hkv
        subst hp
        refine ⟨?_, ?_, ?_⟩
        · show mapFind (toIdMap a) kv.2.id = some oldAnn
          rw [← hkey]; exact hfind
        · show mapFind (toIdMap b) kv.2.id = some kv.2
          rw [← hkey]; exact hmemb
        · exact hd
      · exfalso
        rw [hfind] at hmod
        simp [hd] at hmod
  · rintro ⟨hfa, hfb, hd⟩
    exact ⟨(p.2.id, p.2), (mapFind_eq_some_iff _ (toIdMap_wf b) _ _).mp hfb,
      by simp [modFn, hfa, hd]⟩

/-- Swapping the operands swaps each modified pair's old/new sides; as
sets the two modified lists agree up to that swap. -/
theorem mem_modified_swap (a b : List AnnEntry) (p : AnnEntry × AnnEntry) :
    p ∈ (computeAnnDiffLists a b).modified ↔
      (p.2, p.1) ∈ (computeAnnDiffLists b a).modified := by
  rw [mem_modified_iff, mem_modified_iff]
  constructor
  · rintro ⟨hfa, hfb, hd⟩
    have hid : p.2.id = p.1.id :=
      mapFind_some_key_eq_id _ (toIdMap_wf a) _ _ hfa
    refine ⟨?_, ?_, ?_⟩
    · show mapFind (toIdMap b) p.1.id = some p.2
      rw [← hid]; exact hfb
    · show mapFind (toIdMap a) p.1.id = some p.1
      rw [← hid]; exact hfa
    · exact (entryDiffers_comm p.1 p.2).mp hd
  · rintro ⟨hfb, hfa, hd⟩
    have hid : p.1.id = p.2.id :=
      mapFind_some_key_eq_id _ (toIdMap_wf b) _ _ hfb
    refine ⟨?_, ?_, ?_⟩
    · rw [← hid]; exact hfa
    · rw [← hid]; exact hfb
    · exact (entryDiffers_comm p.2 p.1).mp hd

theorem find?_append_of_none {α : Type} (p : α → Bool) (l1 l2 : List α)
    (h : l1.find? p = none) : (l1 ++ l2).find? p = l2.find? p := by
  induction l1 with
  | nil => simp
  | cons x xs ih =>
    rw [List.find?_cons] at h
    cases hp : p x with
    | true => rw [hp] at h; simp at h
    | false =>
      rw [hp] at h
      rw [List.cons_append, List.find?_cons, hp]
      exact ih h

/-- `versionOps.create`: a failed call leaves the documents table (and
so every `currentVersionId` pointer) untouched, and a successful call
has persisted exactly the given version under its id. -/
theorem versionOpsCreate_spec (f : Fault) (db : DB) (v : DBVersion) :
    ((versionOpsCreate f db v).2 = false →
       (versionOpsCreate f db v).1.documents = db.documents) ∧
    ((versionOpsCreate f db v).2 = true →
       versionOpsGetById (versionOpsCreate f db v).1 v.id = some v) := by
  unfold versionOpsCreate versionsAdd
  by_cases ha : f.addFails = true
  · simp [ha]
  · by_cases hdup : (db.versions.any fun x => x.id = v.id) = true
    · simp [ha, hdup]
    · by_cases hu : f.updateFails = true
      · simp [ha, hdup, hu]
      · simp only [ha, hdup, hu, Bool.false_eq_true, if_false, if_true]
        refine ⟨by intro h; simp at h, ?_⟩
        intro _
        unfold versionOpsGetById documentsUpdateCurrent
        simp only
        have hnone : db.versions.find? (fun w => w.id = v.id) = none := by
          rw [List.find?_eq_none]
          intro x hx
          intro hxid
          apply hdup
          rw [List.any_eq_true]
          exact ⟨x, hx, hxid⟩
        rw [find?_append_of_none _ _ _ hnone]
        simp

/-- C1: Commit atomicity — on any failed commit attempt the tracker's
`pendingChanges`, the UI current-version pointer, and the stored
documents (hence every document's `currentVersionId`) are exactly what
they were before the attempt; on a successful commit the new version is
persisted under the generated id, `pendingChanges` is cleared, and the
current-version pointer moves to the new id — and these mutations occur
only on the success path, i.e. only after persistence succeeded. -/
theorem commit_atomicity (f : Fault) (inst? : Option Renderer) (message : String)
    (s : AppState) :
    ((handleCommit f inst? message s).2 = false →
       (handleCommit f inst? message s).1.pendingChanges = s.pendingChanges ∧
       (handleCommit f inst? message s).1.uiCurrentVersionId = s.uiCurrentVersionId ∧
       (handleCommit f inst? message s).1.db.documents = s.db.documents) ∧
    ((handleCommit f inst? message s).2 = true →
       (handleCommit f inst? message s).1.pendingChanges = [] ∧
       (handleCommit f inst? message s).1.uiCurrentVersionId = some s.nextId ∧
       (∃ w, versionOpsGetById (handleCommit f inst? message s).1.db s.nextId
          = some w)) := by
  cases inst? with
  | none => simp [handleCommit]
  | some inst =>
    cases hdoc : s.currentDocument with
    | none => simp [handleCommit, hdoc]
    | some doc =>
      by_cases hmsg : trimStr message = ""
      · simp [handleCommit, hdoc, hmsg]
      · by_cases hexp : f.exportFails = true
        · simp [handleCommit, hdoc, hmsg, hexp]
        · have hspec := versionOpsCreate_spec f s.db
            { id := s.nextId,
              documentId := doc.id,
              versionNumber := nextVersionNumber s.uiVersions,
              message := trimStr message,
              pdfData := inst.exportedPdf,
              annotations := serializeTrackerAnns s.annotations,
              textContent := StoredText.pagesJson (extractText inst) }
          simp only [handleCommit, hdoc, hmsg, hexp, Bool.false_eq_true,
            if_false]
          cases hres : (versionOpsCreate f s.db
            { id := s.nextId,
              documentId := doc.id,
              versionNumber := nextVersionNumber s.uiVersions,
              message := trimStr message,
              pdfData := inst.exportedPdf,
              annotations := serializeTrackerAnns s.annotations,
              textContent := StoredText.pagesJson (extractText inst) }).2 with
          | false =>
            have hdocs := hspec.1 hres
            simp only [hres, if_false, Bool.false_eq_true]
            exact ⟨fun _ => ⟨by trivial,
                             by trivial,
                             by simpa using hdocs⟩,
                   fun h => by simp at h⟩
          | true =>
            have hget := hspec.2 hres
            simp only [hres, if_true]
            exact ⟨fun h => by simp at h,
                   fun _ => ⟨by trivial,
                             by trivial,
                             ⟨_, by simpa [clearChanges, storeAddVersion] using hget⟩⟩⟩

/-- Witness for C1: a concrete successful commit clears the pending
changes, moves the pointer and persists the version. -/
theorem commit_atomicity_witness :
    (handleCommit noFault (some emptyRenderer) "m" readyState).1.pendingChanges = [] ∧
    (handleCommit noFault (some emptyRenderer) "m" readyState).1.uiCurrentVersionId
      = some readyState.nextId ∧
    (∃ w, versionOpsGetById
        (handleCommit noFault (some emptyRenderer) "m" readyState).1.db
        readyState.nextId = some w) :=
  (commit_atomicity noFault (some emptyRenderer) "m" readyState).2 rfl

/-- C5 counterexample: `versionOps.create` accepts a version numbered 5
while the document's only existing version is numbered 1 — there is no
`SequenceError` rejection anywhere in it. -/
theorem create_no_sequence_check :
    (versionOpsCreate noFault dbOneVersion
      { id := 2, documentId := 0, versionNumber := 5, message := "jump",
        pdfData := [], annotations := [],
        textContent := StoredText.emptyRaw }).2 = true := by decide

/-- C5 (amended): `versionOps.create` performs no `versionNumber`
validation at all — absent environment faults it succeeds exactly when
the version's primary key is fresh, whatever its `versionNumber`; dense
numbering is enforced solely by the callers computing max + 1. -/
theorem create_succeeds_iff_fresh_id (db : DB) (v : DBVersion) :
    (versionOpsCreate noFault db v).2 = true ↔
      ∀ w ∈ db.versions, w.id ≠ v.id := by
  unfold versionOpsCreate versionsAdd noFault
  simp only [Bool.false_eq_true, if_false]
  by_cases hdup : (db.versions.any fun x => x.id = v.id) = true
  · simp only [hdup, if_true]
    constructor
    · intro h; simp at h
    · intro h
      exfalso
      obtain ⟨x, hx, hxid⟩ := List.any_eq_true.mp hdup
      exact h x hx (by simpa using hxid)
  · simp only [hdup, if_false]
    constructor
    · intro _ w hw hid
      exact hdup (List.any_eq_true.mpr ⟨w, hw, by simpa using hid⟩)
    · intro _
      rfl

theorem entryDiffers_self (e : AnnEntry) : entryDiffers e e = false := by
  simp [entryDiffers]

/-- Diffing a page list against itself reports no change on any page. -/
theorem textDiffOfPage_self (ps : List PageText) (i : Nat) :
    (textDiffOfPage ps ps i).hasChanges = false := by
  unfold textDiffOfPage
  simp only
  by_cases ht : pageTextAt ps i = []
  · simp [diffMain, ht, cleanupSemantic]
  · simp [diffMain, ht, cleanupSemantic]

/-- Diffing an annotation list against itself yields the empty result. -/
theorem computeAnnDiffLists_self (l : List AnnEntry) :
    computeAnnDiffLists l l = ⟨[], [], []⟩ := by
  have hwf := toIdMap_wf l
  have hself : ∀ kv ∈ toIdMap l, mapFind (toIdMap l) kv.1 = some kv.2 := by
    intro kv hkv
    refine (mapFind_eq_some_iff _ hwf _ _).mpr ?_
    simpa using hkv
  unfold computeAnnDiffLists
  have hadd : (annDiffOfMaps (toIdMap l) (toIdMap l)).added = [] := by
    rw [annDiff_added_eq]
    rw [List.filterMap_eq_nil]
    intro kv hkv
    unfold addFn
    rw [hself kv hkv]
  have hdel : (annDiffOfMaps (toIdMap l) (toIdMap l)).deleted = [] := by
    rw [annDiff_deleted_eq]
    rw [List.filterMap_eq_nil]
    intro kv hkv
    unfold delFn
    rw [hself kv hkv]
    rfl
  have hmod : (annDiffOfMaps (toIdMap l) (toIdMap l)).modified = [] := by
    rw [annDiff_modified_eq]
    rw [List.filterMap_eq_nil]
    intro kv hkv
    unfold modFn
    rw [hself kv hkv]
    simp [entryDiffers_self]
  cases h : annDiffOfMaps (toIdMap l) (toIdMap l)
  rw [h] at hadd hdel hmod
  simp only at hadd hdel hmod
  rw [hadd, hdel, hmod]

/-- C4 counterexample: `computeFullDiff` applied to the same version id
twice succeeds with an all-empty report (`totalChanges = 0`) instead of
failing with any error. -/
theorem computeFullDiff_self_no_error :
    (computeFullDiff dbOneVersion 1 1).map (fun r => r.summary.totalChanges)
      = some 0 := by decide

/-- C4 (amended): the identical-id rejection lives in the UI handler
(`handleCompare` rejects equal selections before any diff call), while
`computeFullDiff` itself on an existing id paired with itself returns an
empty diff report — no changed page, no annotation change — rather than
failing. -/
theorem identicalVersion_handling (db : DB) (vid : Nat) (v : DBVersion)
    (hin : versionOpsGetById db vid = some v) :
    handleCompare db (some vid) (some vid) = CompareOutcome.identicalRejected ∧
    (∃ r, computeFullDiff db vid vid = some r ∧
       r.summary.totalChanges = 0 ∧
       (∀ d ∈ r.textDiffs, d.hasChanges = false) ∧
       r.annChanges = ⟨[], [], []⟩) := by
  constructor
  · unfold handleCompare
    simp
  · have htext : computeTextDiff db vid vid
        = some (computeTextDiffPages (parseTextContent v.textContent)
            (parseTextContent v.textContent)) := by
      unfold computeTextDiff
      rw [hin]
    have hann : computeAnnDiff db vid vid
        = some (computeAnnDiffLists v.annotations v.annotations) := by
      unfold computeAnnDiff
      rw [hin]
    have hpages : ∀ d ∈ computeTextDiffPages (parseTextContent v.textContent)
        (parseTextContent v.textContent), d.hasChanges = false := by
      intro d hd
      obtain ⟨i, _, rfl⟩ := List.mem_map.mp hd
      exact textDiffOfPage_self _ i
    have hfilter : (computeTextDiffPages (parseTextContent v.textContent)
        (parseTextContent v.textContent)).filter (fun d => d.hasChanges) = [] := by
      rw [List.filter_eq_nil]
      intro d hd
      simp [hpages d hd]
    set tds := computeTextDiffPages (parseTextContent v.textContent)
      (parseTextContent v.textContent) with htds
    set ad := computeAnnDiffLists v.annotations v.annotations with had
    have hfull : computeFullDiff db vid vid
        = some { versionAId := vid, versionBId := vid,
                 textDiffs := tds, annChanges := ad,
                 summary :=
                   { totalChanges := (tds.filter (fun d => d.hasChanges)).length
                       + (ad.added.length + ad.deleted.length + ad.modified.length),
                     textChanges := (tds.filter (fun d => d.hasChanges)).length,
                     annotationsAdded := ad.added.length,
                     annotationsRemoved := ad.deleted.length,
                     annotationsModified := ad.modified.length } } := by
      unfold computeFullDiff
      rw [htext, hann]
    have hself := computeAnnDiffLists_self v.annotations
    rw [← had] at hself
    refine ⟨_, hfull, ?_, ?_, ?_⟩
    · simp only
      rw [hfilter, hself]
      simp
    · simp only
      exact hpages
    · exact hself

/-- Witness for C4's amended statement at the one-version fixture. -/
theorem identicalVersion_handling_witness :
    handleCompare dbOneVersion (some 1) (some 1)
        = CompareOutcome.identicalRejected ∧
    (∃ r, computeFullDiff dbOneVersion 1 1 = some r ∧
       r.summary.totalChanges = 0 ∧
       (∀ d ∈ r.textDiffs, d.hasChanges = false) ∧
       r.annChanges = ⟨[], [], []⟩) :=
  identicalVersion_handling dbOneVersion 1 uploadV1 rfl

/-- C7: text-diff round-trip at the version level — in any page diff
produced for a pair of stored versions, the non-delete segments
concatenate to exactly the compare-side page text and the non-insert
segments to exactly the base-side page text (the empty string when the
page is absent from a snapshot). -/
theorem textDiff_roundTrip (db : DB) (b c : Nat) (vb vc : DBVersion)
    (ds : List TextDiff) (d : TextDiff)
    (hb : versionOpsGetById db b = some vb)
    (hc : versionOpsGetById db c = some vc)
    (hds : computeTextDiff db b c = some ds)
    (hd : d ∈ ds) :
    concatKept (fun op => op != -1) d.changes
      = pageTextAt (parseTextContent vc.textContent) d.pageIndex ∧
    concatKept (fun op => op != 1) d.changes
      = pageTextAt (parseTextContent vb.textContent) d.pageIndex := by
  unfold computeTextDiff at hds
  rw [hb, hc] at hds
  have hds' : computeTextDiffPages (parseTextContent vb.textContent)
      (parseTextContent vc.textContent) = ds := Option.some.inj hds
  rw [← hds'] at hd
  obtain ⟨i, hi, hdi⟩ := List.mem_map.mp hd
  rw [← hdi]
  have hpi : (textDiffOfPage (parseTextContent vb.textContent)
      (parseTextContent vc.textContent) i).pageIndex = i := rfl
  rw [hpi]
  exact textDiffOfPage_roundTrip (parseTextContent vb.textContent)
    (parseTextContent vc.textContent) i

/-- Witness for C7 on the two-version fixture's only page diff. -/
theorem textDiff_roundTrip_witness :
    concatKept (fun op => op != -1)
        (textDiffOfPage [] [⟨0, ['h', 'i']⟩] 0).changes
      = pageTextAt [⟨0, ['h', 'i']⟩] 0 ∧
    concatKept (fun op => op != 1)
        (textDiffOfPage [] [⟨0, ['h', 'i']⟩] 0).changes
      = pageTextAt [] 0 :=
  textDiff_roundTrip dbTwoVersions 1 2 uploadV1 textV2
    (computeTextDiffPages [] [⟨0, ['h', 'i']⟩])
    (textDiffOfPage [] [⟨0, ['h', 'i']⟩] 0)
    rfl rfl rfl (by decide)

/-- A page diff whose base side is the empty snapshot is a single insert
of the compare-side text (or nothing when that page is empty too). -/
theorem textDiffOfPage_emptyBase (ps : List PageText) (i : Nat) :
    (textDiffOfPage [] ps i).changes
        = (if pageTextAt ps i = [] then []
           else [((1 : Int), pageTextAt ps i)]) ∧
    (textDiffOfPage [] ps i).removedCount = 0 ∧
    (textDiffOfPage [] ps i).addedCount = (pageTextAt ps i).length ∧
    (textDiffOfPage [] ps i).hasChanges = decide (pageTextAt ps i ≠ []) := by
  have hbase : pageTextAt [] i = [] := rfl
  by_cases ht : pageTextAt ps i = []
  · unfold textDiffOfPage
    simp [hbase, ht, diffMain, cleanupSemantic]
  · unfold textDiffOfPage
    simp only [hbase, ht, if_false]
    have hdm : diffMain [] (pageTextAt ps i) = [((1 : Int), pageTextAt ps i)] := by
      unfold diffMain
      rw [if_neg (by exact fun h => ht h.symm)]
      simp [commonStart, diffCompute, ht]
    rw [hdm]
    have hcl : cleanupSemantic [((1 : Int), pageTextAt ps i)]
        = [((1 : Int), pageTextAt ps i)] := by
      unfold cleanupSemantic
      rw [if_neg ht]
      rfl
    rw [hcl]
    refine ⟨rfl, ?_, ?_, ?_⟩ <;> simp [ht]

/-- A successful upload has persisted version 1 exactly as built by
`processFile`: versionNumber 1, empty annotations, empty-string text
content. -/
theorem processFile_success_version (f : Fault) (name : String) (bytes : List Nat)
    (s : AppState) (hok : (processFile f name bytes s).2 = true) :
    versionOpsGetById (processFile f name bytes s).1.db (s.nextId + 1)
      = some { id := s.nextId + 1, documentId := s.nextId, versionNumber := 1,
               message := "Initial upload", pdfData := bytes,
               annotations := [], textContent := StoredText.emptyRaw } := by
  unfold processFile at hok ⊢
  by_cases hdf : f.docAddFails = true
  · rw [if_pos hdf] at hok
    simp at hok
  · rw [if_neg hdf] at hok ⊢
    cases hadd : documentsAdd s.db ⟨s.nextId, name, some (s.nextId + 1)⟩ with
    | none =>
      rw [hadd] at hok
      simp at hok
    | some db1 =>
      rw [hadd] at hok
      simp only at hok ⊢
      cases hres : (versionOpsCreate f db1
          { id := s.nextId + 1, documentId := s.nextId, versionNumber := 1,
            message := "Initial upload", pdfData := bytes,
            annotations := [], textContent := StoredText.emptyRaw }).2 with
      | false =>
        rw [hres] at hok
        simp at hok
      | true =>
        rw [if_pos (rfl : true = true)]
        exact (versionOpsCreate_spec f db1 _).2 hres

/-- C10: the uploaded version 1 stores the empty string as its text
snapshot, which parses to zero pages; diffing it (as base) against any
stored version therefore reports, on every page, the whole compare-side
page text as a single insert segment, a zero `removedCount`, and
`hasChanges` exactly on the non-empty pages. -/
theorem upload_text_all_inserted (name : String) (bytes : List Nat) (s : AppState)
    (db : DB) (b c : Nat) (vb vc : DBVersion) (ds : List TextDiff) (d : TextDiff) :
    ((processFile noFault name bytes s).2 = true →
      ∃ w, versionOpsGetById (processFile noFault name bytes s).1.db (s.nextId + 1)
          = some w ∧ w.textContent = StoredText.emptyRaw ∧
          parseTextContent w.textContent = []) ∧
    (versionOpsGetById db b = some vb → vb.textContent = StoredText.emptyRaw →
     versionOpsGetById db c = some vc →
     computeTextDiff db b c = some ds → d ∈ ds →
       d.changes = (if pageTextAt (parseTextContent vc.textContent) d.pageIndex = []
                    then []
                    else [((1 : Int),
                       pageTextAt (parseTextContent vc.textContent) d.pageIndex)]) ∧
       d.removedCount = 0 ∧
       d.addedCount = (pageTextAt (parseTextContent vc.textContent) d.pageIndex).length ∧
       d.hasChanges
         = decide (pageTextAt (parseTextContent vc.textContent) d.pageIndex ≠ [])) := by
  constructor
  · intro hok
    exact ⟨_, processFile_success_version noFault name bytes s hok, rfl, rfl⟩
  · intro hb htc hc hds hd
    unfold computeTextDiff at hds
    rw [hb, hc] at hds
    have hds' : computeTextDiffPages (parseTextContent vb.textContent)
        (parseTextContent vc.textContent) = ds := Option.some.inj hds
    rw [← hds'] at hd
    rw [htc] at hd
    obtain ⟨i, hi, hdi⟩ := List.mem_map.mp hd
    rw [← hdi]
    have hpi : (textDiffOfPage (parseTextContent StoredText.emptyRaw)
        (parseTextContent vc.textContent) i).pageIndex = i := rfl
    rw [hpi]
    exact textDiffOfPage_emptyBase (parseTextContent vc.textContent) i

/-- Witness for C10: the upload of an empty file and the fixture diff of
version 1 against the one-page version 2. -/
theorem upload_text_all_inserted_witness :
    ((∃ w, versionOpsGetById
          (processFile noFault "doc.pdf" [] initialAppState).1.db
          (initialAppState.nextId + 1)
        = some w ∧ w.textContent = StoredText.emptyRaw ∧
        parseTextContent w.textContent = []) ∧
     ((textDiffOfPage [] [⟨0, ['h', 'i']⟩] 0).changes
          = (if pageTextAt (parseTextContent textV2.textContent) 0 = []
             then []
             else [((1 : Int), pageTextAt (parseTextContent textV2.textContent) 0)]) ∧
      (textDiffOfPage [] [⟨0, ['h', 'i']⟩] 0).removedCount = 0 ∧
      (textDiffOfPage [] [⟨0, ['h', 'i']⟩] 0).addedCount
          = (pageTextAt (parseTextContent textV2.textContent) 0).length ∧
      (textDiffOfPage [] [⟨0, ['h', 'i']⟩] 0).hasChanges
          = decide (pageTextAt (parseTextContent textV2.textContent) 0 ≠ []))) :=
  ⟨(upload_text_all_inserted "doc.pdf" [] initialAppState dbTwoVersions 1 2
      uploadV1 textV2 (computeTextDiffPages [] [⟨0, ['h', 'i']⟩])
      (textDiffOfPage [] [⟨0, ['h', 'i']⟩] 0)).1 rfl,
   by
    have h := (upload_text_all_inserted "doc.pdf" [] initialAppState dbTwoVersions
      1 2 uploadV1 textV2 (computeTextDiffPages [] [⟨0, ['h', 'i']⟩])
      (textDiffOfPage [] [⟨0, ['h', 'i']⟩] 0)).2 rfl rfl rfl rfl (by decide)
    simpa using h⟩

/-- C8: annotation-diff symmetry between two stored versions — swapping
the operands turns `added` into `deleted` (and vice versa) entry for
entry, and a pair sits in one direction's `modified` exactly when its
old/new swap sits in the other direction's. -/
theorem annDiff_symmetry (db : DB) (a b : Nat) (va vb : DBVersion)
    (r r' : AnnDiffResult) (p : AnnEntry × AnnEntry)
    (ha : versionOpsGetById db a = some va)
    (hb : versionOpsGetById db b = some vb)
    (hab : computeAnnDiff db a b = some r)
    (hba : computeAnnDiff db b a = some r') :
    r.added = r'.deleted ∧ r.deleted = r'.added ∧
    (p ∈ r.modified ↔ (p.2, p.1) ∈ r'.modified) := by
  unfold computeAnnDiff at hab hba
  rw [ha, hb] at hab hba
  have h1 : computeAnnDiffLists va.annotations vb.annotations = r :=
    Option.some.inj hab
  have h2 : computeAnnDiffLists vb.annotations va.annotations = r' :=
    Option.some.inj hba
  subst h1
  subst h2
  refine ⟨computeAnnDiffLists_added_swap _ _, ?_, ?_⟩
  · exact (computeAnnDiffLists_added_swap vb.annotations va.annotations).symm
  · exact mem_modified_swap _ _ p

/-- Witness for C8 on the draft/final fixture. -/
theorem annDiff_symmetry_witness :
    (computeAnnDiffLists draftV.annotations textV2.annotations).added
      = (computeAnnDiffLists textV2.annotations draftV.annotations).deleted ∧
    (computeAnnDiffLists draftV.annotations textV2.annotations).deleted
      = (computeAnnDiffLists textV2.annotations draftV.annotations).added ∧
    ((⟨"a1", "note", 0, some "draft", none⟩, ⟨"a1", "note", 0, some "final", none⟩)
        ∈ (computeAnnDiffLists draftV.annotations textV2.annotations).modified ↔
     (⟨"a1", "note", 0, some "final", none⟩, ⟨"a1", "note", 0, some "draft", none⟩)
        ∈ (computeAnnDiffLists textV2.annotations draftV.annotations).modified) :=
  annDiff_symmetry dbAnnPair 3 2 draftV textV2
    (computeAnnDiffLists draftV.annotations textV2.annotations)
    (computeAnnDiffLists textV2.annotations draftV.annotations)
    (⟨"a1", "note", 0, some "draft", none⟩, ⟨"a1", "note", 0, some "final", none⟩)
    rfl rfl rfl rfl

/-- C9 counterexample: resyncing twice in a row with the same raw list
does not reproduce the same `annotations` state — every resync maps the
raw records through `toTrackedAnnotation`, which mints fresh internal
ids. -/
theorem resync_changes_ids :
    (syncAnnotationsFromInstance
        (syncAnnotationsFromInstance initialAppState [rawNote]) [rawNote]).annotations
      ≠ (syncAnnotationsFromInstance initialAppState [rawNote]).annotations := by
  decide

theorem trackAll_proj (raws : List RawAnn) : ∀ n : Nat,
    (trackAll n raws).map
        (fun a => (a.pspdfkitId, a.type, a.pageIndex, a.contents, a.color))
      = raws.map
          (fun r => (r.id, mapAnnType r.type, r.pageIndex,
                     getAnnContents r, getAnnColor r)) := by
  induction raws with
  | nil => intro n; rfl
  | cons a rest ih =>
    intro n
    simp [trackAll, toTrackedAnn, ih (n + 1)]

/-- C9 (amended): resync never appends to `pendingChanges`, and a second
resync with the same raw list reproduces the same annotations up to the
freshly minted internal ids (and timestamps): the projections to every
renderer-derived field — external id, type, page, contents, color —
coincide. -/
theorem resync_pending_and_projection (s : AppState) (raws : List RawAnn) :
    (syncAnnotationsFromInstance s raws).pendingChanges = s.pendingChanges ∧
    (syncAnnotationsFromInstance (syncAnnotationsFromInstance s raws)
        raws).pendingChanges = s.pendingChanges ∧
    (syncAnnotationsFromInstance (syncAnnotationsFromInstance s raws)
        raws).annotations.map
        (fun a => (a.pspdfkitId, a.type, a.pageIndex, a.contents, a.color))
      = (syncAnnotationsFromInstance s raws).annotations.map
          (fun a => (a.pspdfkitId, a.type, a.pageIndex, a.contents, a.color)) := by
  refine ⟨rfl, rfl, ?_⟩
  show (trackAll (s.nextId + raws.length) raws).map _
      = (trackAll s.nextId raws).map _
  rw [trackAll_proj raws (s.nextId + raws.length), trackAll_proj raws s.nextId]

/-- C6: discard-on-switch safety — with k > 0 pending changes a switch
request to a non-current version only arms the confirmation dialog,
leaving pending changes and the current version untouched; Cancel
leaves both untouched; Discard and Switch empties the pending changes
and moves the pointer to the armed target; a click on the
already-current version changes nothing at all. -/
theorem discard_on_switch (p : PanelState) (version : VersionMetadata) (k : Nat) :
    (p.app.pendingChanges.length = k → 0 < k →
     some version.id ≠ p.app.uiCurrentVersionId →
       handleVersionClick p version = { p with switchTarget := some version }) ∧
    ((handleCancelSwitch p).app.pendingChanges = p.app.pendingChanges ∧
     (handleCancelSwitch p).app.uiCurrentVersionId = p.app.uiCurrentVersionId) ∧
    (p.switchTarget = some version →
       (handleDiscardAndSwitch p).app.pendingChanges = [] ∧
       (handleDiscardAndSwitch p).app.uiCurrentVersionId = some version.id) ∧
    (some version.id = p.app.uiCurrentVersionId →
       handleVersionClick p version = p) := by
  refine ⟨?_, ⟨rfl, rfl⟩, ?_, ?_⟩
  · intro hk hkpos hne
    unfold handleVersionClick
    rw [if_neg hne, if_pos (by rw [hk]; exact hkpos)]
  · intro ht
    unfold handleDiscardAndSwitch
    rw [ht]
    exact ⟨rfl, rfl⟩
  · intro heq
    unfold handleVersionClick
    rw [if_pos heq]

/-- Witness for C6 on the panel fixture. -/
theorem discard_on_switch_witness :
    handleVersionClick panelWit textV2.metadata
        = { panelWit with switchTarget := some textV2.metadata } ∧
    ((handleCancelSwitch panelWit).app.pendingChanges
        = panelWit.app.pendingChanges ∧
     (handleCancelSwitch panelWit).app.uiCurrentVersionId
        = panelWit.app.uiCurrentVersionId) ∧
    ((handleDiscardAndSwitch panelWit).app.pendingChanges = [] ∧
     (handleDiscardAndSwitch panelWit).app.uiCurrentVersionId
        = some textV2.metadata.id) ∧
    handleVersionClick panelWit uploadV1.metadata = panelWit :=
  ⟨(discard_on_switch panelWit textV2.metadata 1).1 rfl (by decide) (by decide),
   (discard_on_switch panelWit textV2.metadata 1).2.1,
   (discard_on_switch panelWit textV2.metadata 1).2.2.1 rfl,
   (discard_on_switch panelWit uploadV1.metadata 1).2.2.2 (by decide)⟩

/-- C3 counterexample: committing while the tracker list is empty but
the renderer's `exportInstantJSON` reports one annotation persists the
tracker's (empty) serialization, not the renderer's export. -/
theorem snapshot_ignores_renderer_export :
    (versionOpsGetById
        (handleCommit noFault (some annRenderer) "m" readyState).1.db
        readyState.nextId).map (fun w => w.annotations) = some [] ∧
    annRenderer.instantAnnotations ≠ [] := by decide

/-- C3 (amended): the snapshot stored by a successful commit is the
serialization of the Tracker's annotations list at commit time
(`{id: pspdfkitId, type, pageIndex, contents, color}`); the renderer's
`exportInstantJSON` is not consulted. -/
theorem snapshot_from_tracker (f : Fault) (inst : Renderer) (message : String)
    (s : AppState)
    (hok : (handleCommit f (some inst) message s).2 = true) :
    (versionOpsGetById (handleCommit f (some inst) message s).1.db s.nextId).map
        (fun w => w.annotations)
      = some (serializeTrackerAnns s.annotations) := by
  cases hdoc : s.currentDocument with
  | none => simp [handleCommit, hdoc] at hok
  | some doc =>
    by_cases hmsg : trimStr message = ""
    · simp [handleCommit, hdoc, hmsg] at hok
    · by_cases hexp : f.exportFails = true
      · simp [handleCommit, hdoc, hmsg, hexp] at hok
      · have hspec := versionOpsCreate_spec f s.db
          { id := s.nextId,
            documentId := doc.id,
            versionNumber := nextVersionNumber s.uiVersions,
            message := trimStr message,
            pdfData := inst.exportedPdf,
            annotations := serializeTrackerAnns s.annotations,
            textContent := StoredText.pagesJson (extractText inst) }
        simp only [handleCommit, hdoc, hmsg, hexp, Bool.false_eq_true,
          if_false] at hok ⊢
        cases hres : (versionOpsCreate f s.db
          { id := s.nextId,
            documentId := doc.id,
            versionNumber := nextVersionNumber s.uiVersions,
            message := trimStr message,
            pdfData := inst.exportedPdf,
            annotations := serializeTrackerAnns s.annotations,
            textContent := StoredText.pagesJson (extractText inst) }).2 with
        | false =>
          rw [hres] at hok
          simp at hok
        | true =>
          have hmap := congrArg (Option.map (fun w => w.annotations)) (hspec.2 hres)
          simp only [hres, if_true]
          simpa [clearChanges, storeAddVersion] using hmap

/-- Witness for C3's amended statement: the persisted snapshot is the
tracker serialization. -/
theorem snapshot_from_tracker_witness :
    (versionOpsGetById
        (handleCommit noFault (some emptyRenderer) "m" trackerReady).1.db
        trackerReady.nextId).map (fun w => w.annotations)
      = some (serializeTrackerAnns trackerReady.annotations) :=
  snapshot_from_tracker noFault emptyRenderer "m" trackerReady rfl

theorem insertByNumberDesc_top (v : VersionMetadata) (l : List VersionMetadata)
    (h : ∀ w ∈ l, w.versionNumber ≤ v.versionNumber) :
    insertByNumberDesc v l = v :: l := by
  cases l with
  | nil => rfl
  | cons w ws =>
    unfold insertByNumberDesc
    rw [if_pos (h w (List.mem_cons_self w ws))]

theorem sortByNumberDesc_sorted (l : List VersionMetadata)
    (h : l.Pairwise (fun a b => b.versionNumber ≤ a.versionNumber)) :
    sortByNumberDesc l = l := by
  induction l with
  | nil => rfl
  | cons x xs ih =>
    have hx := (List.pairwise_cons.mp h).1
    have hxs := (List.pairwise_cons.mp h).2
    unfold sortByNumberDesc at ih ⊢
    rw [List.foldr_cons, ih hxs]
    exact insertByNumberDesc_top x xs hx

theorem pairwise_desc_of_map (l : List VersionMetadata) (n : Nat)
    (h : l.map (fun v => v.versionNumber) = (List.range' 1 n).reverse) :
    l.Pairwise (fun a b => b.versionNumber ≤ a.versionNumber) := by
  have hr : ((List.range' 1 n).reverse).Pairwise (fun a b => b ≤ a) := by
    rw [List.pairwise_reverse]
    exact (List.pairwise_lt_range' 1 n).imp (fun hab => le_of_lt hab)
  rw [← h] at hr
  rw [List.pairwise_map] at hr
  exact hr

theorem foldl_max_of_le (l : List Nat) : ∀ a, (∀ x ∈ l, x ≤ a) →
    l.foldl max a = a := by
  induction l with
  | nil => intro a _; rfl
  | cons x xs ih =>
    intro a h
    rw [List.foldl_cons]
    have hax : max a x = a := max_eq_left (h x (List.mem_cons_self x xs))
    rw [hax]
    exact ih a (fun y hy => h y (List.mem_cons_of_mem x hy))

theorem foldl_max_range'_reverse (n : Nat) :
    ((List.range' 1 n).reverse).foldl max 0 = n := by
  cases n with
  | zero => rfl
  | succ k =>
    rw [List.range'_1_concat, List.reverse_append]
    simp only [List.reverse_cons, List.reverse_nil, List.nil_append,
      List.cons_append, List.foldl_cons]
    rw [Nat.max_eq_right (Nat.zero_le _)]
    have hfold : ((List.range' 1 k).reverse).foldl max (1 + k) = 1 + k := by
      refine foldl_max_of_le _ _ ?_
      intro x hx
      rw [List.mem_reverse, List.mem_range'_1] at hx
      omega
    omega

theorem nextVersionNumber_of_map (l : List VersionMetadata) (n : Nat)
    (hn : 1 ≤ n)
    (h : l.map (fun v => v.versionNumber) = (List.range' 1 n).reverse) :
    nextVersionNumber l = n + 1 := by
  unfold nextVersionNumber
  have hlen : l.length = n := by
    have hc := congrArg List.length h
    simpa using hc
  rw [if_pos (by omega : l.length > 0), h, foldl_max_range'_reverse]

/-- `versionOps.create` under a fault setting whose `documents.update`
cannot fail: a failed call left the database untouched. -/
theorem versionOpsCreate_fail_db (f : Fault) (db : DB) (v : DBVersion)
    (hf : f.updateFails = false)
    (h2 : (versionOpsCreate f db v).2 = false) :
    (versionOpsCreate f db v).1 = db := by
  unfold versionOpsCreate at h2 ⊢
  by_cases ha : f.addFails = true
  · rw [if_pos ha]
  · rw [if_neg ha] at h2 ⊢
    cases hadd : versionsAdd db v with
    | none => rfl
    | some db1 =>
      rw [hadd] at h2
      simp [hf] at h2

/-- A successful `versionOps.create` appended exactly the given version
to the versions table. -/
theorem versionOpsCreate_success_versions (f : Fault) (db : DB) (v : DBVersion)
    (h2 : (versionOpsCreate f db v).2 = true) :
    (versionOpsCreate f db v).1.versions = db.versions ++ [v] := by
  unfold versionOpsCreate at h2 ⊢
  by_cases ha : f.addFails = true
  · rw [if_pos ha] at h2; simp at h2
  · rw [if_neg ha] at h2 ⊢
    cases hadd : versionsAdd db v with
    | none => rw [hadd] at h2; simp at h2
    | some db1 =>
      rw [hadd] at h2
      by_cases hu : f.updateFails = true
      · simp [hu] at h2
      · have hdb1 : db1.versions = db.versions ++ [v] := by
          unfold versionsAdd at hadd
          by_cases hdup : (db.versions.any fun x => x.id = v.id) = true
          · rw [if_pos hdup] at hadd; simp at hadd
          · rw [if_neg hdup] at hadd
            have h3 := Option.some.inj hadd
            rw [← h3]
        show (if f.updateFails = true then (db1, false)
            else (documentsUpdateCurrent db1 v.documentId v.id, true)).1.versions
          = db.versions ++ [v]
        rw [if_neg hu]
        show (documentsUpdateCurrent db1 v.documentId v.id).versions
          = db.versions ++ [v]
        unfold documentsUpdateCurrent
        simpa using hdb1

/-- One commit attempt preserves the density invariant (provided the
document-pointer update step cannot fail on its own), bumping n exactly
on success. -/
theorem handleCommit_dense (f : Fault) (inst : Renderer) (msg : String)
    (s : AppState) (n : Nat)
    (hf : f.updateFails = false) (hinv : DenseInv s n) :
    DenseInv (handleCommit f (some inst) msg s).1
      (if (handleCommit f (some inst) msg s).2 then n + 1 else n) := by
  obtain ⟨hn1, hdbmap, hdbprops, huimap, huiids, hdoc⟩ := hinv
  cases hdocc : s.currentDocument with
  | none =>
    simp only [handleCommit, hdocc, Bool.false_eq_true, if_false]
    exact ⟨hn1, hdbmap, hdbprops, huimap, huiids, hdoc⟩
  | some doc =>
    by_cases hmsg : trimStr msg = ""
    · simp only [handleCommit, hdocc, hmsg, if_true, Bool.false_eq_true, if_false]
      exact ⟨hn1, hdbmap, hdbprops, huimap, huiids, hdoc⟩
    · by_cases hexp : f.exportFails = true
      · simp only [handleCommit, hdocc, hmsg, hexp, if_true, if_false,
          Bool.false_eq_true]
        exact ⟨hn1, hdbmap, hdbprops, huimap, huiids, hdoc⟩
      · simp only [handleCommit, hdocc, hmsg, hexp, Bool.false_eq_true, if_false]
        set v : DBVersion :=
          { id := s.nextId,
            documentId := doc.id,
            versionNumber := nextVersionNumber s.uiVersions,
            message := trimStr msg,
            pdfData := inst.exportedPdf,
            annotations := serializeTrackerAnns s.annotations,
            textContent := StoredText.pagesJson (extractText inst) } with hv
        cases hres : (versionOpsCreate f s.db v).2 with
        | false =>
          simp only [hres, Bool.false_eq_true, if_false]
          have hdb := versionOpsCreate_fail_db f s.db v hf hres
          refine ⟨hn1, ?_, ?_, huimap, ?_, ?_⟩
          · show ((versionOpsCreate f s.db v).1.versions.map
              (fun w => w.versionNumber)) = List.range' 1 n
            rw [hdb]
            exact hdbmap
          · show ∀ w ∈ (versionOpsCreate f s.db v).1.versions,
              w.documentId = 0 ∧ w.id < s.nextId + 1
            rw [hdb]
            intro w hw
            exact ⟨(hdbprops w hw).1, by have := (hdbprops w hw).2; omega⟩
          · show ∀ m ∈ s.uiVersions, m.id < s.nextId + 1
            intro m hm
            have := huiids m hm
            omega
          · intro d hd
            have h := Option.some.inj hd
            rw [← h]
            exact hdoc doc hdocc
        | true =>
          simp only [hres, if_true]
          have hvers := versionOpsCreate_success_versions f s.db v hres
          have hnv : nextVersionNumber s.uiVersions = n + 1 :=
            nextVersionNumber_of_map s.uiVersions n hn1 huimap
          have hnum : v.versionNumber = n + 1 := hnv
          have hmeta : v.metadata.versionNumber = n + 1 := hnum
          have hfilter : s.uiVersions.filter (fun w => w.id ≠ v.metadata.id)
              = s.uiVersions := by
            rw [List.filter_eq_self]
            intro m hm
            have := huiids m hm
            simp only [decide_eq_true_eq]
            show m.id ≠ s.nextId
            omega
          have hle : ∀ w ∈ s.uiVersions, w.versionNumber ≤ v.metadata.versionNumber := by
            intro w hw
            have hwmem : w.versionNumber ∈ s.uiVersions.map
                (fun m => m.versionNumber) := List.mem_map_of_mem _ hw
            rw [huimap, List.mem_reverse, List.mem_range'_1] at hwmem
            rw [hmeta]
            omega
          have hsorted : (v.metadata :: s.uiVersions).Pairwise
              (fun a b => b.versionNumber ≤ a.versionNumber) := by
            rw [List.pairwise_cons]
            exact ⟨hle, pairwise_desc_of_map s.uiVersions n huimap⟩
          refine ⟨by omega, ?_, ?_, ?_, ?_, ?_⟩
          · show ((versionOpsCreate f s.db v).1.versions.map
              (fun w => w.versionNumber)) = List.range' 1 (n + 1)
            rw [hvers, List.map_append, hdbmap, List.range'_1_concat]
            simp [hnum, hnv, Nat.add_comm]
          · show ∀ w ∈ (versionOpsCreate f s.db v).1.versions,
              w.documentId = 0 ∧ w.id < s.nextId + 1
            rw [hvers]
            intro w hw
            rcases List.mem_append.mp hw with hold | hnew
            · exact ⟨(hdbprops w hold).1, by have := (hdbprops w hold).2; omega⟩
            · simp only [List.mem_singleton] at hnew
              subst hnew
              exact ⟨hdoc doc hdocc, by show s.nextId < s.nextId + 1; omega⟩
          · show (sortByNumberDesc (v.metadata ::
                s.uiVersions.filter (fun w => w.id ≠ v.metadata.id))).map
                (fun w => w.versionNumber) = (List.range' 1 (n + 1)).reverse
            rw [hfilter, sortByNumberDesc_sorted _ hsorted]
            rw [List.map_cons, huimap, hmeta, List.range'_1_concat,
              List.reverse_append]
            simp [hnv, Nat.add_comm]
          · show ∀ m ∈ sortByNumberDesc (v.metadata ::
                s.uiVersions.filter (fun w => w.id ≠ v.metadata.id)),
              m.id < s.nextId + 1
            rw [hfilter, sortByNumberDesc_sorted _ hsorted]
            intro m hm
            rcases List.mem_cons.mp hm with hm1 | hm2
            · subst hm1
              show s.nextId < s.nextId + 1
              omega
            · have := huiids m hm2
              omega
          · intro d hd
            have h := Option.some.inj hd
            rw [← h]
            exact hdoc doc hdocc

/-- Running a commit sequence preserves the density invariant, bumping
n by the number of successes. -/
theorem runCommits_dense (evs : List CommitEv) : ∀ (s : AppState) (n : Nat),
    (∀ e ∈ evs, e.fault.updateFails = false) → DenseInv s n →
    DenseInv (runCommits s evs).1 (n + (runCommits s evs).2) := by
  induction evs with
  | nil =>
    intro s n _ hinv
    simpa [runCommits] using hinv
  | cons e rest ih =>
    intro s n hf hinv
    have hstep := handleCommit_dense e.fault e.renderer e.message s n
      (hf e (List.mem_cons_self e rest)) hinv
    have hfr : ∀ x ∈ rest, x.fault.updateFails = false :=
      fun x hx => hf x (List.mem_cons_of_mem e hx)
    unfold runCommits
    simp only
    cases hok : (handleCommit e.fault (some e.renderer) e.message s).2 with
    | false =>
      rw [hok] at hstep
      simp only [Bool.false_eq_true, if_false] at hstep
      have := ih (handleCommit e.fault (some e.renderer) e.message s).1 n
        hfr hstep
      simpa using this
    | true =>
      rw [hok] at hstep
      simp only [if_true] at hstep
      have := ih (handleCommit e.fault (some e.renderer) e.message s).1 (n + 1)
        hfr hstep
      have harith : n + 1 + (runCommits
          (handleCommit e.fault (some e.renderer) e.message s).1 rest).2
        = n + ((if true then 1 else 0) + (runCommits
          (handleCommit e.fault (some e.renderer) e.message s).1 rest).2) := by
        simp
        omega
      rw [harith] at this
      simpa using this

/-- `processFile` from the pristine state computes to the canonical
one-version state. -/
theorem processFile_initial (name : String) (bytes : List Nat) :
    processFile noFault name bytes initialAppState
      = ({ db := { documents := [⟨0, name, some 1⟩],
                   versions := [{ id := 1, documentId := 0, versionNumber := 1,
                                  message := "Initial upload", pdfData := bytes,
                                  annotations := [],
                                  textContent := StoredText.emptyRaw }] },
           documents := [⟨0, name, some 1⟩],
           currentDocument := some ⟨0, name, some 1⟩,
           uiVersions := [{ id := 1, documentId := 0, versionNumber := 1,
                            message := "Initial upload",
                            annotations := [],
                            textContent := StoredText.emptyRaw }],
           uiCurrentVersionId := some 1,
           annotations := [], pendingChanges := [], nextId := 2 }, true) := rfl

theorem denseInv_initial (name : String) (bytes : List Nat) :
    DenseInv (processFile noFault name bytes initialAppState).1 1 := by
  rw [processFile_initial]
  refine ⟨le_refl 1, rfl, ?_, rfl, ?_, ?_⟩
  · intro w hw
    simp only [List.mem_singleton] at hw
    subst hw
    exact ⟨rfl, by show (1 : Nat) < 2; omega⟩
  · intro m hm
    simp only [List.mem_singleton] at hm
    subst hm
    show (1 : Nat) < 2
    omega
  · intro d hd
    have := Option.some.inj hd
    rw [← this]

/-- C2 counterexample: an attempt that persists the version row but then
fails at the document-pointer update is a failed commit that leaves a
stray version number — after the upload (N = 1) and that one failed
attempt the store holds version numbers [1, 2], not {1}. -/
theorem version_numbering_counterexample :
    (runCommits (processFile noFault "doc.pdf" [] initialAppState).1
        [⟨⟨false, false, false, true⟩, emptyRenderer, "m"⟩]).2 = 0 ∧
    ((runCommits (processFile noFault "doc.pdf" [] initialAppState).1
        [⟨⟨false, false, false, true⟩, emptyRenderer, "m"⟩]).1.db.versions.filter
        (fun v => v.documentId = 0)).map (fun v => v.versionNumber) = [1, 2] ∧
    ([1, 2] : List Nat) ≠ List.range' 1 (1 + 0) := by decide

/-- C2 (amended): starting from a successful upload of a fresh document,
after any sequence of commit attempts in which every injected failure
hits the export or the version insertion (never only the subsequent
document-pointer update), the version numbers stored for the document
are exactly 1..N in insertion order — N counting the upload plus the
successful commits — and the UI store holds the same numbers descending,
with no gaps and no duplicates, regardless of the failed attempts. -/
theorem version_numbering_dense (name : String) (bytes : List Nat)
    (evs : List CommitEv)
    (hf : ∀ e ∈ evs, e.fault.updateFails = false) :
    ((runCommits (processFile noFault name bytes initialAppState).1
        evs).1.db.versions.filter (fun v => v.documentId = 0)).map
        (fun v => v.versionNumber)
      = List.range' 1 (1 + (runCommits
          (processFile noFault name bytes initialAppState).1 evs).2) ∧
    (runCommits (processFile noFault name bytes initialAppState).1
        evs).1.uiVersions.map (fun v => v.versionNumber)
      = (List.range' 1 (1 + (runCommits
          (processFile noFault name bytes initialAppState).1 evs).2)).reverse := by
  have h := runCommits_dense evs (processFile noFault name bytes initialAppState).1
    1 hf (denseInv_initial name bytes)
  obtain ⟨_, hdbmap, hprops, huimap, _, _⟩ := h
  constructor
  · rw [List.filter_eq_self.mpr (fun w hw => by
      simp only [decide_eq_true_eq]
      exact (hprops w hw).1)]
    exact hdbmap
  · exact huimap

/-- Witness for C2's amended statement: upload, one successful commit,
one commit whose version insertion fails. -/
theorem version_numbering_dense_witness :
    ((runCommits (processFile noFault "doc.pdf" [] initialAppState).1
        [⟨noFault, emptyRenderer, "m"⟩,
         ⟨⟨false, false, true, false⟩, emptyRenderer, "m"⟩]).1.db.versions.filter
        (fun v => v.documentId = 0)).map (fun v => v.versionNumber)
      = List.range' 1 (1 + (runCommits
          (processFile noFault "doc.pdf" [] initialAppState).1
          [⟨noFault, emptyRenderer, "m"⟩,
           ⟨⟨false, false, true, false⟩, emptyRenderer, "m"⟩]).2) ∧
    (runCommits (processFile noFault "doc.pdf" [] initialAppState).1
        [⟨noFault, emptyRenderer, "m"⟩,
         ⟨⟨false, false, true, false⟩, emptyRenderer, "m"⟩]).1.uiVersions.map
        (fun v => v.versionNumber)
      = (List.range' 1 (1 + (runCommits
          (processFile noFault "doc.pdf" [] initialAppState).1
          [⟨noFault, emptyRenderer, "m"⟩,
           ⟨⟨false, false, true, false⟩, emptyRenderer, "m"⟩]).2)).reverse :=
  version_numbering_dense "doc.pdf" []
    [⟨noFault, emptyRenderer, "m"⟩,
     ⟨⟨false, false, true, false⟩, emptyRenderer, "m"⟩]
    (by decide)

/-- Witness for C5's amended statement: an out-of-sequence create with a
fresh primary key succeeds. -/
theorem create_succeeds_iff_fresh_id_witness :
    (versionOpsCreate noFault dbOneVersion
      { id := 9, documentId := 0, versionNumber := 7, message := "jump2",
        pdfData := [], annotations := [],
        textContent := StoredText.emptyRaw }).2 = true :=
  (create_succeeds_iff_fresh_id dbOneVersion
    { id := 9, documentId := 0, versionNumber := 7, message := "jump2",
      pdfData := [], annotations := [],
      textContent := StoredText.emptyRaw }).mpr (by decide)

end PdfReview
